import Mathlib

set_option maxRecDepth 8000
set_option maxHeartbeats 1000000

/-!
Verification development for the workbench command parser.

The definitions below are shallow embeddings of the TypeScript sources:
`src/tokenizer.ts` (the lexer), `src/parser.ts` (the grammar node graph and
the `CommandParser` state machine) and the later revision of the parser
module that adds `CommandParser.verify`.  JavaScript strings are modelled
as Lean `String`, arrays as `List`, the ES6 `Map` as an association list,
thrown exceptions as `Except String` carrying the thrown message, and
`undefined` as `Option.none`.
-/

/-- Token kinds of the tokenizer (`TokenType` in `src/tokenizer.ts`). -/
inductive TokenType where
  | invalid
  | whitespace
  | word
  deriving DecidableEq, Repr

/-- A token (`CommandToken` in `src/tokenizer.ts`): text, type and inclusive
source offsets.  The source stores a `SourceLocation` whose line components
are always 0 and whose column components duplicate the character offsets, so
only the character offsets are modelled. -/
structure CommandToken where
  text : String
  tokenType : TokenType
  startChar : Nat
  endChar : Nat
  deriving DecidableEq, Repr

/-- Lexer states (`enum State` in `src/tokenizer.ts`). -/
inductive LState where
  | initial
  | special
  | whitespace
  | doublequote
  | doublequoteBackslash
  | word
  | wordBackslash
  deriving DecidableEq, Repr

/-- The mutable locals of `tokenize`: the accumulated token list plus
`state`, `tokenType`, `tokenStart`, `tokenEnd`. -/
structure LexSt where
  tokens : List CommandToken
  state : LState
  tokenType : TokenType
  tokenStart : Nat
  tokenEnd : Nat
  deriving DecidableEq, Repr

/-- JavaScript `/\s/.test(c)` restricted to the ASCII whitespace characters
(the sources are only ever exercised on ASCII input). -/
def jsIsSpace (c : Char) : Bool :=
  c == ' ' || c == '\t' || c == '\n' || c == '\r' || c == '\x0b' || c == '\x0c'

/-- JavaScript `text.slice(a, b)` for `0 ≤ a ≤ b`, the only way the
tokenizer calls it. -/
def strSlice (text : String) (a b : Nat) : String :=
  String.mk ((text.data.drop a).take (b - a))

/-- The `reset` closure of `tokenize`: clears the in-progress token
bookkeeping (the accumulated token list is kept). -/
def resetLex (st : LexSt) : LexSt :=
  { st with tokenType := TokenType.invalid, tokenStart := 0, tokenEnd := 0,
            state := LState.initial }

/-- The `reduce` closure of `tokenize`: emits the in-progress token
(text is `text.slice(tokenStart, tokenEnd + 1)`) and resets. -/
def reduceLex (text : String) (st : LexSt) : LexSt :=
  resetLex { st with tokens := st.tokens ++
    [⟨strSlice text st.tokenStart (st.tokenEnd + 1), st.tokenType,
      st.tokenStart, st.tokenEnd⟩] }

/-- The `recognize` closure of `tokenize`: on the first character of a new
token, fixes the token type (Whitespace for the whitespace state, Word for
everything else, including the Special state) and the start offset. -/
def recognizeLex (offset : Nat) (nextState : LState) (st : LexSt) : LexSt :=
  if st.tokenType = TokenType.invalid then
    { st with
      tokenType :=
        if nextState = LState.whitespace then TokenType.whitespace else TokenType.word,
      tokenStart := offset }
  else st

/-- The `shift` closure of `tokenize`. -/
def shiftLex (offset : Nat) (nextState : LState) (st : LexSt) : LexSt :=
  { recognizeLex offset nextState st with tokenEnd := offset, state := nextState }

/-- The `special` closure of `tokenize`: `shift(State.Special); reduce()`.
Note that `recognize` types the emitted one-character token as Word. -/
def specialLex (text : String) (offset : Nat) (st : LexSt) : LexSt :=
  reduceLex text (shiftLex offset LState.special st)

/-- The `initial` closure of `tokenize` (also run from the Whitespace
state after a reduce).  The final error branch is unreachable for single
characters since `/\S/` is the complement of `/\s/`. -/
def initialStep (text : String) (offset : Nat) (c : Char) (st : LexSt) :
    Except String LexSt :=
  if jsIsSpace c then Except.ok (shiftLex offset LState.whitespace st)
  else if c = ';' then Except.ok (specialLex text offset st)
  else if c = '?' then Except.ok (specialLex text offset st)
  else if c = '|' then Except.ok (specialLex text offset st)
  else if c = '"' then Except.ok (shiftLex offset LState.doublequote st)
  else if c = '\\' then
    Except.ok (shiftLex offset LState.wordBackslash (recognizeLex offset LState.word st))
  else if !jsIsSpace c then Except.ok (shiftLex offset LState.word st)
  else Except.error "Invalid character."

/-- One iteration of the character loop of `tokenize` (the `switch (state)`
statement).  Faithful points worth noting:
* the Word case handles `;`, `|`, `"` and `\` but has no `?` branch, so a
  `?` inside a word falls through to the `/\S/` branch and is absorbed;
* the WordBackslash case tests `/S/` (the literal character `S`), not
  `/\S/`, exactly as written in the source;
* the DoublequoteBackslash case tests `/\S/`;
* the source `switch` has no case for the Special state (unreachable),
  which in JavaScript means the character is ignored. -/
def stepChar (text : String) (offset : Nat) (c : Char) (st : LexSt) :
    Except String LexSt :=
  match st.state with
  | LState.initial => initialStep text offset c st
  | LState.whitespace =>
    if jsIsSpace c then Except.ok (shiftLex offset LState.whitespace st)
    else initialStep text offset c (reduceLex text st)
  | LState.word =>
    if jsIsSpace c then Except.ok (shiftLex offset LState.whitespace (reduceLex text st))
    else if c = ';' then Except.ok (specialLex text offset (reduceLex text st))
    else if c = '|' then Except.ok (specialLex text offset (reduceLex text st))
    else if c = '"' then Except.ok (shiftLex offset LState.doublequote (reduceLex text st))
    else if c = '\\' then Except.ok (shiftLex offset LState.wordBackslash st)
    else if !jsIsSpace c then Except.ok (shiftLex offset LState.word st)
    else Except.error "Character not allowed here."
  | LState.wordBackslash =>
    if c = 'S' then Except.ok (shiftLex offset LState.word st)
    else Except.error "Character not allowed here."
  | LState.doublequote =>
    if c = '"' then Except.ok (reduceLex text (shiftLex offset LState.doublequote st))
    else if c = '\\' then Except.ok (shiftLex offset LState.doublequoteBackslash st)
    else Except.ok (shiftLex offset LState.doublequote st)
  | LState.doublequoteBackslash =>
    if !jsIsSpace c then Except.ok (shiftLex offset LState.doublequote st)
    else Except.error "Character not allowed here."
  | LState.special => Except.ok st

/-- The character loop of `tokenize`. -/
def tokenizeGo (text : String) : Nat → List Char → LexSt → Except String LexSt
  | _, [], st => Except.ok st
  | offset, c :: cs, st =>
    match stepChar text offset c st with
    | Except.error e => Except.error e
    | Except.ok st2 => tokenizeGo text (offset + 1) cs st2

/-- The end-of-source `switch` of `tokenize`, transcribed exactly as
written: the WordBackslash case is a bare `break` (the in-progress token is
silently dropped and the tokens gathered so far are returned), the
Doublequote case raises `"Escaping backslash at end of file."` and the
DoublequoteBackslash case raises `"Unclosed double quote at end of file."`
(the `invalid` calls throw, so the missing `break` after the Doublequote
case never falls through at runtime). -/
def finishLex (text : String) (st : LexSt) : Except String (List CommandToken) :=
  match st.state with
  | LState.initial => Except.ok st.tokens
  | LState.word => Except.ok (reduceLex text st).tokens
  | LState.whitespace => Except.ok (reduceLex text st).tokens
  | LState.wordBackslash => Except.ok st.tokens
  | LState.doublequote => Except.error "Escaping backslash at end of file."
  | LState.doublequoteBackslash => Except.error "Unclosed double quote at end of file."
  | LState.special => Except.error "BUG: Unknown lexer state at end of file."

/-- `tokenize(text)` from `src/tokenizer.ts`. -/
def tokenize (text : String) : Except String (List CommandToken) :=
  match tokenizeGo text 0 text.data
      { tokens := [], state := LState.initial, tokenType := TokenType.invalid,
        tokenStart := 0, tokenEnd := 0 } with
  | Except.error e => Except.error e
  | Except.ok st => finishLex text st

/-- Node kinds of the grammar graph in `src/parser.ts`: the base
`ParserNode` (plain), `RootNode`, `SymbolNode`, `Command`, `WrapperNode`
and `Parameter`.  The class hierarchy is replaced by a tagged variant over
an arena of nodes addressed by index (object identity becomes index
equality, which is what the history checks compare). -/
inductive NodeKind where
  | plain
  | root
  | symbol
  | command
  | wrapper
  | parameter
  deriving DecidableEq, Repr

/-- A captured parameter value: `Parameter.convert` yields the token text
(a JavaScript string), repeatable parameters accumulate an array. -/
inductive Value where
  | str (s : String)
  | list (l : List String)
  deriving DecidableEq, Repr

/-- One grammar node.  Fields cover the union of the node classes; each
kind only reads its own fields.  `wrapped` is the `root` field of a
`WrapperNode`, `command` the owning command of a `Parameter`, and
`parameters`/`required` are the `CommandNode.parameters` list and the
`ParameterNode.required` option of the revision that adds `verify`. -/
structure Node where
  kind : NodeKind := NodeKind.plain
  symbol : String := ""
  hidden : Bool := false
  hasHandler : Bool := false
  repeatable : Bool := false
  repeatMarker : Option Nat := none
  command : Option Nat := none
  wrapped : Nat := 0
  parameters : List Nat := []
  required : Bool := false
  help : Option String := none
  successors : List Nat := []
  deriving DecidableEq, Repr

/-- The arena holding the grammar graph. -/
structure Graph where
  nodes : List Node
  deriving Repr

def getNode (g : Graph) (i : Nat) : Node :=
  g.nodes.getD i {}

/-- The virtual `successors` getter, with explicit fuel.  `WrapperNode`
delegates to the wrapped node's (virtual) getter; `Parameter` returns its
owning command's successors concatenated with its own stored list (the
source guards on `if (this.command)`).  A delegation chain can only visit
each node once before the JavaScript original would loop forever, so fuel
`g.nodes.length + 1` (used by `succsOf`) is enough for every input on
which the original terminates. -/
def succsF : Nat → Graph → Nat → List Nat
  | 0, _, _ => []
  | fuel + 1, g, i =>
    let n := getNode g i
    match n.kind with
    | NodeKind.wrapper => succsF fuel g n.wrapped
    | NodeKind.parameter =>
      match n.command with
      | some c => succsF fuel g c ++ n.successors
      | none => n.successors
    | _ => n.successors

def succsOf (g : Graph) (i : Nat) : List Nat :=
  succsF (g.nodes.length + 1) g i

/-- The per-invocation state of a `CommandParser`: current node, the
parallel `nodes`/`tokens` history arrays, the matched-command stack and
the captured-parameter map. -/
structure PState where
  currentNode : Nat
  nodes : List Nat := []
  tokens : List CommandToken := []
  commands : List Nat := []
  params : List (String × Value) := []
  deriving DecidableEq, Repr

/-- `CommandParser.nodeSeen`: `this.nodes.indexOf(node) >= 0`. -/
def nodeSeen (st : PState) (i : Nat) : Bool :=
  st.nodes.contains i

/-- Whether the pattern occurs in `s` at index `i` (JavaScript substring
occurrence; an empty pattern occurs at every index up to `s.length`). -/
def strOccursAt (s pat : List Char) (i : Nat) : Bool :=
  (s.drop i).take pat.length == pat

/-- JavaScript `s.lastIndexOf(pat)` (no fromIndex): the largest index at
which `pat` occurs in `s`, or `-1`.  `List.range` is ascending, so the
last element of the filtered list is the largest occurrence. -/
def jsLastIndexOf (s pat : String) : Int :=
  match ((List.range (s.length + 1)).filter (fun i => strOccursAt s.data pat.data i)).getLast? with
  | some i => (i : Int)
  | none => -1

/-- `SymbolNode.match` from `src/parser.ts`:
`this.symbol.lastIndexOf(token.text) === 0` (the source comments this as a
polyfill for the missing `String.startsWith`). -/
def symbolMatch (symbol tokenText : String) : Bool :=
  decide (jsLastIndexOf symbol tokenText = 0)

/-- The virtual `acceptable` predicate: the base `ParserNode.acceptable`
is `!nodeSeen`, and `Parameter` overrides it with the repeatable /
repeat-marker logic. -/
def acceptable (g : Graph) (st : PState) (i : Nat) : Bool :=
  let n := getNode g i
  match n.kind with
  | NodeKind.parameter =>
    if n.repeatable then true
    else
      !nodeSeen st i &&
        (match n.repeatMarker with
         | none => true
         | some m => !nodeSeen st m)
  | _ => !nodeSeen st i

/-- The virtual `match` predicate: `RootNode.match` throws, the base
`ParserNode.match` returns false, and `SymbolNode` (hence also `Command`,
`WrapperNode` and `Parameter`, none of which override it) prefix-tests the
token text against the node's fixed symbol via `lastIndexOf`. -/
def matchE (g : Graph) (i : Nat) (tok : CommandToken) : Except String Bool :=
  match (getNode g i).kind with
  | NodeKind.root => Except.error "BUG: Tried to match a root node."
  | NodeKind.plain => Except.ok false
  | _ => Except.ok (symbolMatch (getNode g i).symbol tok.text)

/-- JavaScript truthiness of a captured value: the empty string is falsy,
every other string and every array (even the empty one) is truthy. -/
def jsTruthy : Value → Bool
  | Value.str s => !(s == "")
  | Value.list _ => true

/-- `Map.get`. -/
def mapGet (m : List (String × Value)) (k : String) : Option Value :=
  (m.find? (fun p => p.1 == k)).map (fun p => p.2)

/-- `Map.has`. -/
def mapHas (m : List (String × Value)) (k : String) : Bool :=
  (mapGet m k).isSome

/-- `Map.set`: updates the existing entry in place or appends a new one. -/
def mapSet (m : List (String × Value)) (k : String) (v : Value) : List (String × Value) :=
  if m.any (fun p => p.1 == k) then
    m.map (fun p => if p.1 == k then (k, v) else p)
  else m ++ [(k, v)]

/-- `CommandParser.pushParameter`.  For a repeatable parameter the source
runs `var list = this.parameters.get(param.name) || []; list.push(value)`:
a falsy existing entry (absent, or the empty string) is replaced by a
fresh array, an existing array is extended, and a truthy non-array entry
makes `list.push` throw a TypeError. -/
def pushParameter (st : PState) (name : String) (repeatable : Bool) (value : String) :
    Except String PState :=
  if repeatable then
    match mapGet st.params name with
    | some (Value.list l) =>
      Except.ok { st with params := mapSet st.params name (Value.list (l ++ [value])) }
    | some (Value.str s) =>
      if s = "" then
        Except.ok { st with params := mapSet st.params name (Value.list [value]) }
      else Except.error "TypeError: list.push is not a function"
    | none => Except.ok { st with params := mapSet st.params name (Value.list [value]) }
  else Except.ok { st with params := mapSet st.params name (Value.str value) }

/-- `CommandParser.getParameter`:
`return this.parameters.get(name) || defaultValue`. -/
def getParameter (st : PState) (name : String) (defaultValue : Option Value) : Option Value :=
  match mapGet st.params name with
  | some v => if jsTruthy v then some v else defaultValue
  | none => defaultValue

/-- The virtual `accept` action: `Command.accept` pushes the command onto
the matched stack when it has a handler (`WrapperNode` inherits it but is
constructed with an undefined handler), `Parameter.accept` captures
`convert(token)` which is the token text, and every other node does
nothing. -/
def acceptN (g : Graph) (st : PState) (i : Nat) (tok : CommandToken) : Except String PState :=
  match (getNode g i).kind with
  | NodeKind.command | NodeKind.wrapper =>
    if (getNode g i).hasHandler then Except.ok { st with commands := st.commands ++ [i] }
    else Except.ok st
  | NodeKind.parameter =>
    pushParameter st (getNode g i).symbol (getNode g i).repeatable tok.text
  | _ => Except.ok st

/-- `CommandParser.pushNode`: sets the current node and appends to the
parallel `nodes`/`tokens` history arrays. -/
def pushNode (st : PState) (tok : CommandToken) (i : Nat) : PState :=
  { st with currentNode := i, nodes := st.nodes ++ [i], tokens := st.tokens ++ [tok] }

/-- The `toString` methods used when formatting the no-match error. -/
def nodeToString (n : Node) : String :=
  match n.kind with
  | NodeKind.plain => "[ParserNode]"
  | NodeKind.root => "[RootNode]"
  | NodeKind.symbol | NodeKind.parameter => "[SymbolNode: " ++ n.symbol ++ "]"
  | NodeKind.command | NodeKind.wrapper => "[Command: " ++ n.symbol ++ "]"

/-- The message of the error thrown by `advance` when nothing matches. -/
def noMatchMsg (g : Graph) (st : PState) (tok : CommandToken) : String :=
  "At node " ++ nodeToString (getNode g st.currentNode) ++ ": No matches for \"" ++
    tok.text ++ "\""

/-- `Array.prototype.filter` over the `acceptable && match` callback of
`matchingSuccessors`; `&&` short-circuits (so `match`, which throws on a
root node, is only evaluated for acceptable nodes) and a thrown exception
aborts the whole filter. -/
def filterME (g : Graph) (st : PState) (tok : CommandToken) :
    List Nat → Except String (List Nat)
  | [] => Except.ok []
  | i :: rest =>
    match (if acceptable g st i then matchE g i tok else Except.ok false) with
    | Except.error e => Except.error e
    | Except.ok b =>
      match filterME g st tok rest with
      | Except.error e => Except.error e
      | Except.ok r => Except.ok (if b then i :: r else r)

/-- `ParserNode.matchingSuccessors` as invoked on the current node. -/
def matchingSuccessors (g : Graph) (st : PState) (tok : CommandToken) :
    Except String (List Nat) :=
  filterME g st tok (succsOf g st.currentNode)

/-- The boolean outcome of the `match` predicate (false where it throws);
used to state what `matchingSuccessors` computes. -/
def matchedB (g : Graph) (i : Nat) (tok : CommandToken) : Bool :=
  match matchE g i tok with
  | Except.ok b => b
  | Except.error _ => false

/-- `CommandParser.advance`: one match accepts and pushes, zero matches
throws the no-match error, anything else throws `"Ambiguous match."`. -/
def advance (g : Graph) (st : PState) (tok : CommandToken) : Except String PState :=
  match matchingSuccessors g st tok with
  | Except.error e => Except.error e
  | Except.ok possibleMatches =>
    match possibleMatches with
    | [m] =>
      match acceptN g st m tok with
      | Except.error e => Except.error e
      | Except.ok st2 => Except.ok (pushNode st2 tok m)
    | [] => Except.error (noMatchMsg g st tok)
    | _ => Except.error "Ambiguous match."

/-- Sequential `advance` over a token list (no skipping); used to state
what `parse` feeds to `advance`. -/
def advanceAll (g : Graph) : PState → List CommandToken → Except String PState
  | st, [] => Except.ok st
  | st, t :: ts =>
    match advance g st t with
    | Except.error e => Except.error e
    | Except.ok st2 => advanceAll g st2 ts

/-- `CommandParser.parse`: iterates the tokens, feeding every token whose
type is not Whitespace to `advance`; an exception thrown by `advance`
aborts the iteration. -/
def parse (g : Graph) : PState → List CommandToken → Except String PState
  | st, [] => Except.ok st
  | st, t :: ts =>
    if t.tokenType = TokenType.whitespace then parse g st ts
    else
      match advance g st t with
      | Except.error e => Except.error e
      | Except.ok st2 => parse g st2 ts

/-- The messages accumulated by the `expected.forEach` loop of
`CommandParser.verify` (from the parser revision that adds `verify`): one
message per declared parameter that is `required` and absent from the
captured map, in declaration order.  The `return false` inside the source
callback only returns from the callback, so the loop neither stops early
nor affects the method's result. -/
def requiredMissingMsgs (g : Graph) (st : PState) (c : Node) : List String :=
  c.parameters.foldl
    (fun acc pi =>
      let p := getNode g pi
      if p.required && !mapHas st.params p.symbol then
        acc ++ ["Missing required parameter \"" ++ p.symbol ++ "\"."]
      else acc)
    []

/-- `CommandParser.verify(errorAccumulator)` from the parser revision that
adds it, returning the result together with the final accumulator.  When a
command has matched it appends a message for every missing required
parameter of the last matched command and then reaches the trailing
`return true`; otherwise it appends `"Incomplete command."` and returns
false. -/
def verify (g : Graph) (st : PState) (errorAccumulator : List String) :
    Bool × List String :=
  match st.commands.getLast? with
  | some ci => (true, errorAccumulator ++ requiredMissingMsgs g st (getNode g ci))
  | none => (false, errorAccumulator ++ ["Incomplete command."])

/-- The `CompletionConfig` literal passed to `makeCompletion`; `none`
models a field left `undefined`. -/
structure CompletionConfig where
  exhaustive : Option Bool
  completeOptions : Option (List String) := none
  otherOptions : Option (List String) := none

/-- The observable parts of a `Completion`: the help strings, the
truthiness of the `exhaustive` field and the option list, each option
paired with its `complete` flag. -/
structure CompletionR where
  helpSymbol : String
  helpText : String
  exhaustive : Bool
  options : List (String × Bool)
  deriving DecidableEq, Repr

/-- Whether the scan of `longestCommonPrefix` stops at index `i`: some
option has length `i` or differs from the first option at `i` (the inner
`j` loop; the default characters of `getD` are never compared because the
first option itself stops the scan at its own length). -/
def lcpTrigger (options : List String) (first : String) (i : Nat) : Bool :=
  options.any (fun o => i == o.length || !(o.data.getD i 'a' == first.data.getD i 'a'))

/-- `longestCommonPrefix(options)` from `src/parser.ts`: empty input gives
`""`; otherwise the scan index climbs until some option ends or diverges
from the first option, and the prefix of the first option up to that index
is returned.  The name carries an `Fn` suffix in this development. -/
def longestCommonPrefixFn (options : List String) : String :=
  match options with
  | [] => ""
  | first :: _ =>
    match (List.range (first.length + 1)).find? (fun i => lcpTrigger options first i) with
    | some i => String.mk (first.data.take i)
    | none => first

/-- The virtual `helpSymbol` method. -/
def helpSymbolOf (n : Node) : String :=
  match n.kind with
  | NodeKind.plain | NodeKind.root => "<...>"
  | NodeKind.symbol | NodeKind.command | NodeKind.wrapper => n.symbol
  | NodeKind.parameter =>
    if n.repeatable then "<" ++ n.symbol ++ ">..." else "<" ++ n.symbol ++ ">"

/-- The virtual `helpText` method (`Parameter` falls back to
`"Parameter"` when its help option is falsy). -/
def helpTextOf (n : Node) : String :=
  match n.kind with
  | NodeKind.plain | NodeKind.root => "No help."
  | NodeKind.symbol | NodeKind.command | NodeKind.wrapper => ""
  | NodeKind.parameter =>
    match n.help with
    | some h => if h = "" then "Parameter" else h
    | none => "Parameter"

/-- `makeCompletion(node, token, options)` from `src/parser.ts`.  The
source sets `completion.exhaustive = options.exhaustive` when
`options.exhaustive === undefined` (leaving the field undefined, hence
falsy) and `completion.exhaustive = false` otherwise, so the flag is falsy
on every path; both branches are transcribed here as `false`.  Option
filtering uses the same `lastIndexOf` polyfill as `SymbolNode.match`. -/
def makeCompletion (node : Node) (token : Option CommandToken) (cfg : CompletionConfig) :
    CompletionR :=
  let exhaustive : Bool :=
    match cfg.exhaustive with
    | none => false
    | some _ => false
  let completeOptions0 := cfg.completeOptions.getD []
  let otherOptions0 := cfg.otherOptions.getD []
  let filtered :=
    match token with
    | none => (completeOptions0, otherOptions0)
    | some tok =>
      let co := completeOptions0.filter (fun o => decide (jsLastIndexOf o tok.text = 0))
      let oo := otherOptions0.filter (fun o => decide (jsLastIndexOf o tok.text = 0))
      if !exhaustive && !co.contains tok.text && !oo.contains tok.text then
        (co, oo ++ [tok.text])
      else (co, oo)
  let completeOptions := filtered.1
  let otherOptions := filtered.2
  let allOptions := completeOptions ++ otherOptions
  let lcp := longestCommonPrefixFn allOptions
  let otherOptions :=
    if !(lcp == "") && !allOptions.contains lcp &&
        (match token with
         | none => true
         | some tok => !(lcp == tok.text)) then
      otherOptions ++ [lcp]
    else otherOptions
  { helpSymbol := helpSymbolOf node, helpText := helpTextOf node,
    exhaustive := exhaustive,
    options := completeOptions.map (fun o => (o, true)) ++
      otherOptions.map (fun o => (o, false)) }

/-- `SymbolNode.complete` (and the identical `Command.complete`):
`makeCompletion(this, token, { exhaustive: true, completeOptions: [this.symbol] })`. -/
def symbolComplete (node : Node) (token : Option CommandToken) : CompletionR :=
  makeCompletion node token
    { exhaustive := some true, completeOptions := some [node.symbol] }

/-- Demo grammar for the advance theorems: root → symbol `show` →
command `interface` (the grammar of the repository's own
`can advance to a command` test). -/
def demoG : Graph := ⟨[
  { kind := NodeKind.root, successors := [1] },
  { kind := NodeKind.symbol, symbol := "show", successors := [2] },
  { kind := NodeKind.command, symbol := "interface", hasHandler := true }]⟩

def demoSt : PState := { currentNode := 0 }

def demoTok : CommandToken := ⟨"show", TokenType.word, 0, 3⟩

/-- Demo grammar for the parameter-matching theorem: command `test` with
one repeatable simple parameter `a` (the grammar of the repository's own
`can handle repeatable parameters` test). -/
def paramG : Graph := ⟨[
  { kind := NodeKind.root, successors := [1] },
  { kind := NodeKind.command, symbol := "test", hasHandler := true,
    successors := [2], parameters := [2] },
  { kind := NodeKind.parameter, symbol := "a", repeatable := true, command := some 1 }]⟩

/-- Demo grammar for the verify theorem: command `c` with two required
parameters `p` and `q`, neither captured. -/
def reqG : Graph := ⟨[
  { kind := NodeKind.root, successors := [1] },
  { kind := NodeKind.command, symbol := "c", hasHandler := true,
    successors := [2, 3], parameters := [2, 3] },
  { kind := NodeKind.parameter, symbol := "p", required := true, command := some 1 },
  { kind := NodeKind.parameter, symbol := "q", required := true, command := some 1 }]⟩

/-- Parser state after `c` has matched on `reqG`. -/
def reqSt : PState :=
  { currentNode := 1, nodes := [1], tokens := [⟨"c", TokenType.word, 0, 0⟩],
    commands := [1] }

/-- Demo grammar for the parse theorems: a single command `a`. -/
def semiG : Graph := ⟨[
  { kind := NodeKind.root, successors := [1] },
  { kind := NodeKind.command, symbol := "a", hasHandler := true }]⟩

/-- The symbol node of the completion theorem. -/
def showNode : Node := { kind := NodeKind.symbol, symbol := "show" }

theorem filterME_eq_filter (g : Graph) (st : PState) (tok : CommandToken) :
    ∀ (l r : List Nat), filterME g st tok l = Except.ok r →
      r = l.filter (fun i => acceptable g st i && matchedB g i tok) := by
  intro l
  induction l with
  | nil =>
    intro r h
    simp only [filterME, Except.ok.injEq] at h
    simp [← h]
  | cons j rest ih =>
    intro r h
    rw [filterME] at h
    cases hacc : acceptable g st j with
    | false =>
      rw [hacc] at h
      simp only [Bool.false_eq_true, if_false] at h
      cases hrest : filterME g st tok rest with
      | error e => rw [hrest] at h; cases h
      | ok r0 =>
        rw [hrest] at h
        simp only [if_false, Bool.false_eq_true, Except.ok.injEq] at h
        rw [List.filter_cons]
        simp only [hacc, Bool.false_and, Bool.false_eq_true, if_false]
        rw [← h]
        exact ih r0 hrest
    | true =>
      rw [hacc] at h
      simp only [if_true] at h
      cases hm : matchE g j tok with
      | error e => rw [hm] at h; cases h
      | ok b =>
        rw [hm] at h
        cases hrest : filterME g st tok rest with
        | error e => rw [hrest] at h; cases h
        | ok r0 =>
          rw [hrest] at h
          simp only [Except.ok.injEq] at h
          rw [List.filter_cons]
          have hmb : matchedB g j tok = b := by simp [matchedB, hm]
          rw [hacc, hmb]
          cases b with
          | false => simp only [Bool.and_false, Bool.false_eq_true, if_false]
                     rw [← h]; simp only [if_false, Bool.false_eq_true]
                     exact ih r0 hrest
          | true => simp only [Bool.and_true, if_true]
                    rw [← h]; simp only [if_true]
                    rw [ih r0 hrest]

theorem pushParameter_fields (st : PState) (name : String) (rep : Bool) (v : String)
    (st2 : PState) (h : pushParameter st name rep v = Except.ok st2) :
    st2.nodes = st.nodes ∧ st2.tokens = st.tokens := by
  unfold pushParameter at h
  split at h
  · split at h
    · simp only [Except.ok.injEq] at h
      rw [← h]
      exact ⟨rfl, rfl⟩
    · split at h
      · simp only [Except.ok.injEq] at h
        rw [← h]
        exact ⟨rfl, rfl⟩
      · cases h
    · simp only [Except.ok.injEq] at h
      rw [← h]
      exact ⟨rfl, rfl⟩
  · simp only [Except.ok.injEq] at h
    rw [← h]
    exact ⟨rfl, rfl⟩

theorem acceptN_fields (g : Graph) (st : PState) (m : Nat) (tok : CommandToken)
    (st2 : PState) (h : acceptN g st m tok = Except.ok st2) :
    st2.nodes = st.nodes ∧ st2.tokens = st.tokens := by
  unfold acceptN at h
  split at h
  all_goals
    first
    | exact pushParameter_fields st _ _ _ st2 h
    | (split at h <;> (simp only [Except.ok.injEq] at h; rw [← h]; exact ⟨rfl, rfl⟩))
    | (simp only [Except.ok.injEq] at h; rw [← h]; exact ⟨rfl, rfl⟩)

/-- C1: for every parser state and token, `advance` computes the list of
successors of the current node that are acceptable given the history and
match the token; with exactly one match it calls `accept` on that node,
appends the (token, node) pair to the history and makes that node current;
with no match it fails with the no-match error; with several matches it
fails with the ambiguous-match error, without backtracking. -/
theorem advance_computes_matches (g : Graph) (st : PState) (tok : CommandToken)
    (ms : List Nat) (hms : matchingSuccessors g st tok = Except.ok ms) :
    ms = (succsOf g st.currentNode).filter (fun i => acceptable g st i && matchedB g i tok)
    ∧ (∀ m st2, ms = [m] → acceptN g st m tok = Except.ok st2 →
        advance g st tok = Except.ok
          { currentNode := m, nodes := st.nodes ++ [m], tokens := st.tokens ++ [tok],
            commands := st2.commands, params := st2.params })
    ∧ (ms = [] → advance g st tok = Except.error (noMatchMsg g st tok))
    ∧ (∀ a b rest, ms = a :: b :: rest →
        advance g st tok = Except.error "Ambiguous match.") := by
  refine ⟨filterME_eq_filter g st tok _ ms hms, ?_, ?_, ?_⟩
  · intro m st2 hm hacc
    subst hm
    obtain ⟨h1, h2⟩ := acceptN_fields g st m tok st2 hacc
    simp only [advance, hms, hacc]
    simp [pushNode, h1, h2]
  · intro hnil
    subst hnil
    simp only [advance, hms]
  · intro a b rest hm
    subst hm
    simp only [advance, hms]

/-- Witness for the advance theorem: on the `show`/`interface` demo
grammar, advancing the fresh parser by the token `show` matches exactly
the symbol node 1 and moves there, extending the history. -/
theorem advance_computes_matches_witness :
    advance demoG demoSt demoTok =
      Except.ok { currentNode := 1, nodes := [1], tokens := [demoTok],
                  commands := [], params := [] } :=
  (advance_computes_matches demoG demoSt demoTok [1] rfl).2.1 1 demoSt rfl rfl

/-- C2: the claim that `Parameter.match` accepts any token is false on the
code.  `Parameter` never overrides `match`, so it inherits the
`SymbolNode` prefix test against the parameter's own name: on the
repository's own repeatable-parameter test grammar (command `test`,
parameter `a`), the value token `A` is rejected, and feeding
`test A` to `parse` dies with a no-match error instead of capturing `A`. -/
theorem parameter_match_not_unconditional :
    matchE paramG 2 ⟨"A", TokenType.word, 5, 5⟩ = Except.ok false
    ∧ parse paramG { currentNode := 0 }
        [⟨"test", TokenType.word, 0, 3⟩, ⟨"A", TokenType.word, 5, 5⟩] =
      Except.error "At node [Command: test]: No matches for \"A\"" :=
  ⟨rfl, rfl⟩

/-- C3: on a matched command with required parameters `p` and `q` and an
empty captured map, `verify` appends one message per missing required
parameter (all of them, in order) but nevertheless returns `true`: the
`return false` in the source sits inside the `forEach` callback and never
leaves the loop. -/
theorem verify_missing_required_returns_true :
    verify reqG reqSt [] =
      (true, ["Missing required parameter \"p\".",
              "Missing required parameter \"q\"."]) :=
  rfl

/-- C4: `SymbolNode.match` is the test `symbol.lastIndexOf(text) === 0`.
It accepts the spec's example (`sho` against `show`) but rejects the
non-empty prefix `a` of `aa` (and `s` of `status`), because `lastIndexOf`
finds the later occurrence: the claim that every non-empty prefix matches,
even one that occurs again later in the symbol, is false on the code. -/
theorem symbolMatch_rejects_repeated_prefix :
    symbolMatch "show" "sho" = true
    ∧ symbolMatch "aa" "a" = false
    ∧ List.isPrefixOf "a".data "aa".data = true
    ∧ symbolMatch "status" "s" = false
    ∧ List.isPrefixOf "s".data "status".data = true := by
  refine ⟨rfl, rfl, by decide, rfl, by decide⟩

/-- C5 counterexample: the tokenizer has no Special token type (the
one-character `;` token is typed Word), so `parse` does feed the `;`
token of `a;` to `advance`, which fails on it, contradicting the claim
that a trailing `;` never reaches `advance`. -/
theorem parse_feeds_semicolon_token :
    tokenize "a;" =
      Except.ok [⟨"a", TokenType.word, 0, 0⟩, ⟨";", TokenType.word, 1, 1⟩]
    ∧ parse semiG { currentNode := 0 }
        [⟨"a", TokenType.word, 0, 0⟩, ⟨";", TokenType.word, 1, 1⟩] =
      Except.error "At node [Command: a]: No matches for \";\"" :=
  ⟨rfl, rfl⟩

/-- C5 as amended: `parse` feeds to `advance` exactly the tokens whose
type is not Whitespace, in their original order, stopping at the first
`advance` failure; the special characters `;`, `|`, `?` are tokenized as
Word-typed tokens and are therefore fed to `advance` like any word (the
tokenization of `a;` shown in the second conjunct ends in such a token). -/
theorem parse_skips_only_whitespace :
    (∀ (g : Graph) (st : PState) (ts : List CommandToken),
      parse g st ts =
        advanceAll g st (ts.filter (fun t => !(t.tokenType = TokenType.whitespace))))
    ∧ tokenize "a;" =
        Except.ok [⟨"a", TokenType.word, 0, 0⟩, ⟨";", TokenType.word, 1, 1⟩] := by
  refine ⟨?_, rfl⟩
  intro g st ts
  induction ts generalizing st with
  | nil => rfl
  | cons t rest ih =>
    cases hadv : advance g st t with
    | error e =>
      by_cases hw : t.tokenType = TokenType.whitespace
      · simp only [parse, List.filter_cons, hw]
        simp
        exact ih st
      · simp [parse, List.filter_cons, hw, advanceAll, hadv]
    | ok st2 =>
      by_cases hw : t.tokenType = TokenType.whitespace
      · simp only [parse, List.filter_cons, hw]
        simp
        exact ih st
      · simp [parse, List.filter_cons, hw, advanceAll, hadv]
        exact ih st2

/-- C6: completing the symbol node `show` never yields an exhaustive
completion: the inverted conditional in `makeCompletion` leaves the
`exhaustive` flag falsy even though `SymbolNode.complete` passes
`exhaustive: true`, and as a consequence the partial token `sho` is added
to the option list as an extra incomplete option next to `show`; without
a token the option list is the single option `show` but the flag is still
false.  This contradicts the claim of an exhaustive single-option
completion. -/
theorem symbolComplete_not_exhaustive :
    symbolComplete showNode (some ⟨"sho", TokenType.word, 0, 2⟩) =
      { helpSymbol := "show", helpText := "", exhaustive := false,
        options := [("show", true), ("sho", false)] }
    ∧ symbolComplete showNode none =
      { helpSymbol := "show", helpText := "", exhaustive := false,
        options := [("show", true)] } :=
  ⟨rfl, rfl⟩

/-- C7: the end-of-input behaviour of `tokenize` diverges from the claim
in every state but QuotedEscape.  Ending inside an unclosed quote (state
Doublequote) raises the dangling-escape message
`Escaping backslash at end of file.`; ending right after a backslash in a
quote (state DoublequoteBackslash) raises
`Unclosed double quote at end of file.`; and ending right after a
backslash in a word (state WordBackslash) raises nothing at all: the
token list gathered so far is returned and the in-progress token is
dropped (for ` a\` the whitespace token is returned without the word). -/
theorem tokenize_eof_divergence :
    tokenize "\"a" = Except.error "Escaping backslash at end of file."
    ∧ tokenize "\"a\\" = Except.error "Unclosed double quote at end of file."
    ∧ tokenize "a\\" = Except.ok []
    ∧ tokenize " a\\" = Except.ok [⟨" ", TokenType.whitespace, 0, 0⟩] :=
  ⟨rfl, rfl, rfl, rfl⟩

/-- C8 counterexample: a bare `?` in the middle of a word is not emitted
as its own token; `a?` tokenizes to the single Word token `a?` because
the Word state of the lexer has no `?` branch. -/
theorem question_mark_absorbed_in_word :
    tokenize "a?" = Except.ok [⟨"a?", TokenType.word, 0, 1⟩] :=
  rfl

/-- C8 as amended: in the Word state the characters `;` and `|` terminate
the accumulated word and are emitted immediately as their own
one-character Word-typed tokens, and at the start of a token (Initial
state) `;`, `|` and `?` are each emitted as their own one-character
token — but `?` in the Word state is absorbed into the word like any
other non-space character, advancing the token end without emitting
anything. -/
theorem special_chars_word_boundary :
    (∀ (text : String) (offset : Nat) (toks : List CommandToken) (s e : Nat),
      stepChar text offset ';' ⟨toks, LState.word, TokenType.word, s, e⟩ =
        Except.ok ⟨toks ++ [⟨strSlice text s (e + 1), TokenType.word, s, e⟩] ++
            [⟨strSlice text offset (offset + 1), TokenType.word, offset, offset⟩],
          LState.initial, TokenType.invalid, 0, 0⟩)
    ∧ (∀ (text : String) (offset : Nat) (toks : List CommandToken) (s e : Nat),
      stepChar text offset '|' ⟨toks, LState.word, TokenType.word, s, e⟩ =
        Except.ok ⟨toks ++ [⟨strSlice text s (e + 1), TokenType.word, s, e⟩] ++
            [⟨strSlice text offset (offset + 1), TokenType.word, offset, offset⟩],
          LState.initial, TokenType.invalid, 0, 0⟩)
    ∧ (∀ (text : String) (offset : Nat) (toks : List CommandToken) (s e : Nat),
      stepChar text offset '?' ⟨toks, LState.word, TokenType.word, s, e⟩ =
        Except.ok ⟨toks, LState.word, TokenType.word, s, offset⟩)
    ∧ (∀ (text : String) (offset : Nat) (toks : List CommandToken),
      stepChar text offset ';' ⟨toks, LState.initial, TokenType.invalid, 0, 0⟩ =
        Except.ok ⟨toks ++ [⟨strSlice text offset (offset + 1), TokenType.word, offset, offset⟩],
          LState.initial, TokenType.invalid, 0, 0⟩)
    ∧ (∀ (text : String) (offset : Nat) (toks : List CommandToken),
      stepChar text offset '|' ⟨toks, LState.initial, TokenType.invalid, 0, 0⟩ =
        Except.ok ⟨toks ++ [⟨strSlice text offset (offset + 1), TokenType.word, offset, offset⟩],
          LState.initial, TokenType.invalid, 0, 0⟩)
    ∧ (∀ (text : String) (offset : Nat) (toks : List CommandToken),
      stepChar text offset '?' ⟨toks, LState.initial, TokenType.invalid, 0, 0⟩ =
        Except.ok ⟨toks ++ [⟨strSlice text offset (offset + 1), TokenType.word, offset, offset⟩],
          LState.initial, TokenType.invalid, 0, 0⟩) :=
  ⟨fun _ _ _ _ _ => rfl, fun _ _ _ _ _ => rfl, fun _ _ _ _ _ => rfl,
   fun _ _ _ => rfl, fun _ _ _ => rfl, fun _ _ _ => rfl⟩

/-- C9 counterexample: the escape does not accept one following character
of any kind, and `tokenize` does fail on a word containing a backslash
followed by an ordinary character: `a\b` raises
`Character not allowed here.` (the WordBackslash state tests the regex
`/S/`, i.e. the literal character `S`), and inside quotes a backslash
followed by a whitespace character also raises
`Character not allowed here.`. -/
theorem word_escape_rejects_ordinary_char :
    tokenize "a\\b" = Except.error "Character not allowed here."
    ∧ tokenize "\"a\\ b\"" = Except.error "Character not allowed here." :=
  ⟨rfl, rfl⟩

/-- C9 as amended: inside a Quoted region a backslash enters an escape
state that accepts exactly one following non-whitespace character —
kept verbatim in the token text, no unescaping — and returns to the
Quoted state, while a whitespace character there raises
`Character not allowed here.`; inside a Word the escape state accepts
only the literal character `S` (the source tests `/S/` where the
Quoted escape tests `/\S/`) and raises `Character not allowed here.`
for every other character, so a word containing a backslash followed by
an ordinary character makes `tokenize` fail.  The final conjunct shows
the verbatim retention on the repository's own quoted-escape test input
`"a\""`. -/
theorem escape_states_behavior :
    (∀ (text : String) (offset : Nat) (toks : List CommandToken) (s e : Nat),
      stepChar text offset 'S' ⟨toks, LState.wordBackslash, TokenType.word, s, e⟩ =
        Except.ok ⟨toks, LState.word, TokenType.word, s, offset⟩)
    ∧ (∀ (text : String) (offset : Nat) (toks : List CommandToken) (s e : Nat) (c : Char),
      c ≠ 'S' →
        stepChar text offset c ⟨toks, LState.wordBackslash, TokenType.word, s, e⟩ =
          Except.error "Character not allowed here.")
    ∧ (∀ (text : String) (offset : Nat) (toks : List CommandToken) (s e : Nat) (c : Char),
      jsIsSpace c = false →
        stepChar text offset c ⟨toks, LState.doublequoteBackslash, TokenType.word, s, e⟩ =
          Except.ok ⟨toks, LState.doublequote, TokenType.word, s, offset⟩)
    ∧ (∀ (text : String) (offset : Nat) (toks : List CommandToken) (s e : Nat) (c : Char),
      jsIsSpace c = true →
        stepChar text offset c ⟨toks, LState.doublequoteBackslash, TokenType.word, s, e⟩ =
          Except.error "Character not allowed here.")
    ∧ tokenize "\"a\\\"\"" = Except.ok [⟨"\"a\\\"\"", TokenType.word, 0, 4⟩] := by
  refine ⟨fun _ _ _ _ _ => rfl, ?_, ?_, ?_, rfl⟩
  · intro text offset toks s e c hc
    simp only [stepChar]
    rw [if_neg hc]
  · intro text offset toks s e c hc
    simp only [stepChar, hc]
    rfl
  · intro text offset toks s e c hc
    simp only [stepChar, hc]
    rfl

/-- Witness for the escape-state theorem: the concrete steps that kill
`a\b` (an ordinary letter after a word backslash) and a quoted escape
followed by a space, with the hypotheses discharged by computation. -/
theorem escape_states_behavior_witness :
    stepChar "a\\b" 2 'b' ⟨[], LState.wordBackslash, TokenType.word, 0, 1⟩ =
      Except.error "Character not allowed here."
    ∧ stepChar "\"a\\ " 3 ' ' ⟨[], LState.doublequoteBackslash, TokenType.word, 0, 2⟩ =
      Except.error "Character not allowed here." :=
  ⟨escape_states_behavior.2.1 "a\\b" 2 [] 0 1 'b' (by decide),
   escape_states_behavior.2.2.2.1 "\"a\\ " 3 [] 0 2 ' ' (by decide)⟩

/-- C10: `getParameter` returns the supplied default whenever the stored
value for the name is falsy, which happens exactly when the entry is
absent or holds the empty string (repeatable captures store arrays, which
are always truthy): capturing the empty string is indistinguishable at
this interface from never having captured the parameter. -/
theorem getParameter_falsy_returns_default (st : PState) (name : String)
    (d : Option Value)
    (h : mapGet st.params name = some (Value.str "") ∨ mapGet st.params name = none) :
    getParameter st name d = d := by
  cases h with
  | inl h1 => simp [getParameter, h1, jsTruthy]
  | inr h1 => simp [getParameter, h1]

/-- Witness for the falsy-default theorem: a parameter captured as the
empty string yields the fallback value, exactly as if it were absent. -/
theorem getParameter_falsy_returns_default_witness :
    getParameter { currentNode := 0, params := [("x", Value.str "")] } "x"
      (some (Value.str "fallback")) = some (Value.str "fallback") :=
  getParameter_falsy_returns_default
    { currentNode := 0, params := [("x", Value.str "")] } "x"
    (some (Value.str "fallback")) (Or.inl rfl)
